import Mathlib

/-
  Verification development for the Neuroarti document reconciliation engine.

  The Python source (core/utils.py, main.py, app.py) is shallowly embedded
  over `List Char`: Python strings become character lists, the BeautifulSoup
  html.parser tree becomes an explicit `Node` inductive, and each operation
  of the engine (apply_diff_patch, isolate_and_clean_html, extract_assets,
  the rewrite-element endpoint, patch_html) becomes an executable Lean
  function translated clause by clause from the source.
-/

namespace Neuroarti

/-- Character strings, modelling Python `str` over its character sequence. -/
abbrev Str := List Char

/- ===================== Python string primitives ===================== -/

/-- Exact prefix test: does the pattern start the string? -/
def startsWith : Str → Str → Bool
  | [], _ => true
  | _ :: _, [] => false
  | p :: ps, c :: cs => (p == c) && startsWith ps cs

/-- Index of the first occurrence of `pat` in `s` (Python `str.find` when the
result is interpreted as `Option`); `some 0` for an empty pattern. -/
def findSub (pat : Str) : Str → Option Nat
  | [] => if startsWith pat [] then some 0 else none
  | c :: cs =>
    if startsWith pat (c :: cs) then some 0
    else (findSub pat cs).map (· + 1)

/-- Python `pat in s` substring test. -/
def containsSub (pat s : Str) : Bool := (findSub pat s).isSome

/-- Python `s.replace(pat, rep, 1)` for nonempty `pat`: replace the first
occurrence only; `s` unchanged when `pat` does not occur. -/
def replaceFirst (s pat rep : Str) : Str :=
  match findSub pat s with
  | none => s
  | some i => s.take i ++ rep ++ s.drop (i + pat.length)

/-- The newline character test used by Python `strip(chr(10))`. -/
def isNLc (c : Char) : Bool := c == '\n'

/-- Python whitespace test for `str.strip()` (ASCII whitespace). -/
def isPyWS (c : Char) : Bool :=
  c == ' ' || c == '\t' || c == '\n' || c == '\r' ||
  c == Char.ofNat 11 || c == Char.ofNat 12

/-- Strip characters satisfying `p` from both ends of a list. -/
def stripBoth (p : Char → Bool) (s : Str) : Str :=
  ((s.dropWhile p).reverse.dropWhile p).reverse

/-- Python `s.strip(chr(10))`: remove leading and trailing newlines. -/
def stripNL (s : Str) : Str := stripBoth isNLc s

/-- Python `s.strip()`: remove leading and trailing whitespace. -/
def stripWS (s : Str) : Str := stripBoth isPyWS s

/-- Python `sep.join(parts)` specialised to a newline separator. -/
def joinNL : List Str → Str
  | [] => []
  | [s] => s
  | s :: rest => s ++ '\n' :: joinNL rest

/- ===================== Patch parser / applier ===================== -/

/-- Sentinel constant SEARCH_START from core/prompts.py. -/
def SEARCH_START : Str := "<<<<<<< SEARCH".data

/-- Sentinel constant DIVIDER from core/prompts.py. -/
def DIVIDER : Str := "=======".data

/-- Sentinel constant REPLACE_END from core/prompts.py. -/
def REPLACE_END : Str := ">>>>>>> REPLACE".data

/-- Split `s` at the first occurrence of `pat`: the part before the match and
the part after it, or `none` when `pat` does not occur. -/
def splitAtSub (pat s : Str) : Option (Str × Str) :=
  match findSub pat s with
  | none => none
  | some i => some (s.take i, s.drop (i + pat.length))

/-- One step of the sentinel scan of apply_diff_patch (core/utils.py line 33):
the regex SEARCH_START(.*?)DIVIDER(.*?)REPLACE_END with DOTALL, iterated by
finditer.  Each match takes the text between the first SEARCH_START and the
first DIVIDER after it, then the text up to the first REPLACE_END after that,
and the scan resumes past the match.  Fuel bounds the recursion; each step
consumes at least one character, so `s.length` fuel is always enough. -/
def parseBlocksAux (fuel : Nat) (s : Str) : List (Str × Str) :=
  match fuel with
  | 0 => []
  | fuel' + 1 =>
    match splitAtSub SEARCH_START s with
    | none => []
    | some (_, rest1) =>
      match splitAtSub DIVIDER rest1 with
      | none => []
      | some (g1, rest2) =>
        match splitAtSub REPLACE_END rest2 with
        | none => []
        | some (g2, rest3) => (g1, g2) :: parseBlocksAux fuel' rest3

/-- All SEARCH/REPLACE blocks of an AI response, in order of appearance. -/
def parseBlocks (s : Str) : List (Str × Str) := parseBlocksAux s.length s

/-- The body of the loop of apply_diff_patch (core/utils.py lines 42-53):
strip newlines from both groups; a whitespace-only search block prepends the
replace block plus a newline, otherwise the first exact occurrence of the
search block is replaced and an absent search block leaves the text as is. -/
def applyBlock (modified : Str) (b : Str × Str) : Str :=
  let search_block := stripNL b.1
  let replace_block := stripNL b.2
  if stripWS search_block = [] then
    replace_block ++ '\n' :: modified
  else if containsSub search_block modified then
    replaceFirst modified search_block replace_block
  else
    modified

/-- apply_diff_patch from core/utils.py lines 26-55: return the original when
the response is empty or has no SEARCH_START, otherwise parse the blocks and
fold the loop body over `reversed(matches)` (line 42). -/
def apply_diff_patch (original_html ai_response : Str) : Str :=
  if ai_response = [] ∨ containsSub SEARCH_START ai_response = false then
    original_html
  else
    let ms := parseBlocks ai_response
    if ms = [] then original_html
    else (ms.reverse).foldl applyBlock original_html

/-- Modelled from the spec (section 4.4): the same patch application but with
the blocks processed in the order they appear in the patch text, the order
the spec asserts.  Used only to compare against apply_diff_patch, which
processes them reversed. -/
def apply_diff_patch_specOrder (original_html ai_response : Str) : Str :=
  if ai_response = [] ∨ containsSub SEARCH_START ai_response = false then
    original_html
  else
    let ms := parseBlocks ai_response
    if ms = [] then original_html
    else ms.foldl applyBlock original_html

/- ===================== Chatter isolator ===================== -/

/-- ASCII lowercasing, modelling re.IGNORECASE matching of ASCII patterns. -/
def lowerC (c : Char) : Char :=
  if 'A' ≤ c ∧ c ≤ 'Z' then Char.ofNat (c.toNat + 32) else c

/-- Case-insensitive prefix test for one ASCII pattern. -/
def startsWithCI : Str → Str → Bool
  | [], _ => true
  | _ :: _, [] => false
  | p :: ps, c :: cs => (lowerC p == lowerC c) && startsWithCI ps cs

/-- Case-insensitive "some pattern of `pats` starts here" test. -/
def startsAnyCI (pats : List Str) (s : Str) : Bool :=
  pats.any (fun p => startsWithCI p s)

/-- Index of the leftmost case-insensitive occurrence of any pattern of
`pats` in `s`, modelling re.search with an alternation of ASCII literals
under re.IGNORECASE. -/
def findAnyCI (pats : List Str) : Str → Option Nat
  | [] => if startsAnyCI pats [] then some 0 else none
  | c :: cs =>
    if startsAnyCI pats (c :: cs) then some 0
    else (findAnyCI pats (c :: cs).tail).map (· + 1)

/-- The DOCTYPE literal searched first by isolate_and_clean_html. -/
def doctypeTok : Str := "<!DOCTYPE html>".data

/-- The html-tag literal searched second by isolate_and_clean_html. -/
def htmlTok : Str := "<html".data

/-- The last-resort opening-tag literals of isolate_and_clean_html line 70. -/
def fallbackToks : List Str :=
  ["<div".data, "<section".data, "<header".data, "<main".data, "<body".data]

/-- isolate_and_clean_html from core/utils.py lines 57-73: return the suffix
of the text from the first DOCTYPE declaration, else from the first html tag,
else from the first plausible structural opening tag, else the empty
string. -/
def isolate_and_clean_html (raw_text : Str) : Str :=
  if raw_text = [] then []
  else
    match findAnyCI [doctypeTok] raw_text with
    | some i => raw_text.drop i
    | none =>
      match findAnyCI [htmlTok] raw_text with
      | some i => raw_text.drop i
      | none =>
        match findAnyCI fallbackToks raw_text with
        | some i => raw_text.drop i
        | none => []

/- ===================== HTML document model ===================== -/

/-
  The following definitions embed the BeautifulSoup html.parser pipeline
  used by extract_assets, the rewrite-element endpoint of main.py and
  patch_html of app.py: a tokenizer with the stdlib html.parser behavior
  (declarations, comments, start/end tags with attributes, raw CDATA
  content for style and script, character references in data and attribute
  values), a tree builder that matches close tags against the open-tag
  stack (ignoring unmatched close tags and never pushing void elements),
  and the str() serializer (minimal formatter: ampersand and angle brackets
  escaped in text, raw content inside style and script, attributes in
  insertion order, void elements self-closed).
-/

/-- A node of the BeautifulSoup parse tree: an element with attributes and
children, a text node, a comment, or a declaration such as DOCTYPE. -/
inductive Node where
  | elem : Str → List (Str × Str) → List Node → Node
  | text : Str → Node
  | comment : Str → Node
  | doctype : Str → Node

/-- HTML whitespace inside tags. -/
def isHtmlWS (c : Char) : Bool :=
  c == ' ' || c == '\t' || c == '\n' || c == '\r' || c == Char.ofNat 12

/-- ASCII letter test. -/
def isAsciiLetter (c : Char) : Bool :=
  ('a' ≤ c && c ≤ 'z') || ('A' ≤ c && c ≤ 'Z')

/-- Characters allowed in tag and attribute names. -/
def isNameChar (c : Char) : Bool :=
  isAsciiLetter c || ('0' ≤ c && c ≤ '9') || c == '-' || c == '_' ||
  c == ':' || c == '.'

/-- The single-quote character, kept out of literals. -/
def squote : Char := Char.ofNat 39

/-- Decoding of the common named character references, modelling the
convert_charrefs pass of html.parser on data and attribute values. -/
def unescapeEntities : Str → Str
  | '&' :: 'a' :: 'm' :: 'p' :: ';' :: rest => '&' :: unescapeEntities rest
  | '&' :: 'l' :: 't' :: ';' :: rest => '<' :: unescapeEntities rest
  | '&' :: 'g' :: 't' :: ';' :: rest => '>' :: unescapeEntities rest
  | '&' :: 'q' :: 'u' :: 'o' :: 't' :: ';' :: rest => '"' :: unescapeEntities rest
  | '&' :: 'a' :: 'p' :: 'o' :: 's' :: ';' :: rest => squote :: unescapeEntities rest
  | c :: rest => c :: unescapeEntities rest
  | [] => []

/-- Tokens produced by the html.parser tokenizer. -/
inductive Tok where
  | start : Str → List (Str × Str) → Bool → Tok
  | close : Str → Tok
  | data : Str → Tok
  | comment : Str → Tok
  | decl : Str → Tok

/-- Attribute scan inside a start tag, up to the closing angle bracket:
returns the attributes in source order, the self-closing flag, and the rest
of the input.  Bare attributes get the empty value, as the BeautifulSoup
html.parser tree builder rewrites None values to the empty string.  Fuel
bounds the scan; `s.length + 1` is always enough. -/
def parseAttrs (fuel : Nat) (s : Str) : List (Str × Str) × Bool × Str :=
  match fuel with
  | 0 => ([], false, s)
  | fuel' + 1 =>
    let s1 := s.dropWhile isHtmlWS
    match s1 with
    | [] => ([], false, [])
    | '>' :: rest => ([], false, rest)
    | '/' :: '>' :: rest => ([], true, rest)
    | '/' :: rest => parseAttrs fuel' rest
    | c :: rest =>
      let aname := (s1.takeWhile isNameChar).map lowerC
      if aname = [] then parseAttrs fuel' rest
      else
        let afterName := (s1.drop aname.length).dropWhile isHtmlWS
        match afterName with
        | '=' :: r2 =>
          let r3 := r2.dropWhile isHtmlWS
          match r3 with
          | '"' :: r4 =>
            let v := r4.takeWhile (fun c => c ≠ '"')
            let (as_, sc, rest') := parseAttrs fuel' (r4.drop (v.length + 1))
            ((aname, unescapeEntities v) :: as_, sc, rest')
          | c2 :: _ =>
            if c2 = squote then
              let r4 := r3.drop 1
              let v := r4.takeWhile (fun c => c ≠ squote)
              let (as_, sc, rest') := parseAttrs fuel' (r4.drop (v.length + 1))
              ((aname, unescapeEntities v) :: as_, sc, rest')
            else
              let v := r3.takeWhile (fun c => ¬ (isHtmlWS c || c == '>'))
              let (as_, sc, rest') := parseAttrs fuel' (r3.drop v.length)
              ((aname, unescapeEntities v) :: as_, sc, rest')
          | [] => ([(aname, [])], false, [])
        | _ =>
          let (as_, sc, rest') := parseAttrs fuel' afterName
          ((aname, []) :: as_, sc, rest')

/-- Raw-text container elements of html.parser (CDATA_CONTENT_ELEMENTS). -/
def isRawTextName (name : Str) : Bool :=
  name == "style".data || name == "script".data

/-- The html.parser tokenizer: declarations, comments, end tags, start tags
with attributes (switching to raw-text mode after a style or script start
tag, scanning case-insensitively for the matching close tag), character
data up to the next angle bracket, and a lone angle bracket as data.  Fuel
bounds the scan; `s.length + 1` is always enough since every step consumes
at least one character. -/
def tokenizeAux (fuel : Nat) (s : Str) : List Tok :=
  match fuel with
  | 0 => []
  | fuel' + 1 =>
    match s with
    | [] => []
    | '<' :: '!' :: '-' :: '-' :: rest =>
      match splitAtSub "-->".data rest with
      | some (c, rest2) => Tok.comment c :: tokenizeAux fuel' rest2
      | none => [Tok.comment rest]
    | '<' :: '!' :: rest =>
      let d := rest.takeWhile (fun c => c ≠ '>')
      if d.length = rest.length then [Tok.decl rest]
      else Tok.decl d :: tokenizeAux fuel' (rest.drop (d.length + 1))
    | '<' :: '/' :: rest =>
      let name := (rest.takeWhile isNameChar).map lowerC
      let after := rest.dropWhile (fun c => c ≠ '>')
      match after with
      | [] => []
      | _ :: rest2 => Tok.close name :: tokenizeAux fuel' rest2
    | '<' :: c :: rest =>
      if isAsciiLetter c then
        let name := ((c :: rest).takeWhile isNameChar).map lowerC
        let afterName := (c :: rest).drop name.length
        let (attrs, selfC, rest2) := parseAttrs (afterName.length + 1) afterName
        if selfC = false ∧ isRawTextName name then
          match findAnyCI ['<' :: '/' :: name] rest2 with
          | some i =>
            let raw := rest2.take i
            Tok.start name attrs false ::
              ((if raw = [] then [] else [Tok.data raw]) ++
                tokenizeAux fuel' (rest2.drop i))
          | none =>
            Tok.start name attrs false ::
              (if rest2 = [] then [] else [Tok.data rest2])
        else Tok.start name attrs selfC :: tokenizeAux fuel' rest2
      else Tok.data ['<'] :: tokenizeAux fuel' (c :: rest)
    | ['<'] => [Tok.data ['<']]
    | _ =>
      let d := s.takeWhile (fun c => c ≠ '<')
      Tok.data (unescapeEntities d) :: tokenizeAux fuel' (s.drop d.length)

/-- Void (empty-element) tags, never pushed on the open-tag stack. -/
def voidElems : List Str :=
  ["area".data, "base".data, "br".data, "col".data, "embed".data,
   "hr".data, "img".data, "input".data, "link".data, "meta".data,
   "param".data, "source".data, "track".data, "wbr".data]

/-- Python dict insertion for attributes: an existing key keeps its position
and takes the new value, a new key is appended. -/
def insertAttr (acc : List (Str × Str)) (kv : Str × Str) : List (Str × Str) :=
  if acc.any (fun e => e.1 == kv.1) then
    acc.map (fun e => if e.1 == kv.1 then (e.1, kv.2) else e)
  else acc ++ [kv]

/-- Attribute-dict construction from the parsed attribute list. -/
def dedupAttrs (l : List (Str × Str)) : List (Str × Str) :=
  l.foldl insertAttr []

/-- One open-element frame of the tree builder: name, attributes, and the
children accumulated so far. -/
abbrev Frame := Str × List (Str × Str) × List Node

/-- Append a finished node to the children of the innermost open frame. -/
def addChild (n : Node) : List Frame → List Frame
  | [] => []
  | (nm, at_, cs) :: rest => (nm, at_, cs ++ [n]) :: rest

/-- Does some open frame carry this tag name? -/
def stackHasOpen (name : Str) (st : List Frame) : Bool :=
  st.any (fun f => f.1 == name)

/-- Close the given innermost frame into its parent and keep popping until
a frame with the given name has been closed. -/
def popToTagAux (name : Str) : Frame → List Frame → List Frame
  | f, [] => [f]
  | (nm, at_, cs), (nm2, at2, cs2) :: rest =>
    if nm = name then (nm2, at2, cs2 ++ [Node.elem nm at_ cs]) :: rest
    else popToTagAux name (nm2, at2, cs2 ++ [Node.elem nm at_ cs]) rest

/-- Close open frames up to and including the nearest one with the given
name, attaching each closed element to its parent, as BeautifulSoup does
for an end tag (implicitly closing the intervening elements). -/
def popToTag (name : Str) : List Frame → List Frame
  | [] => []
  | f :: rest => popToTagAux name f rest

/-- Close the given innermost frame and every frame below it; the children
of the bottom frame are the final node list. -/
def finishStackAux : Frame → List Frame → List Node
  | (_, _, cs), [] => cs
  | (nm, at_, cs), (nm2, at2, cs2) :: rest =>
    finishStackAux (nm2, at2, cs2 ++ [Node.elem nm at_ cs]) rest

/-- Close every remaining open frame at end of input and return the
children of the root frame. -/
def finishStack : List Frame → List Node
  | [] => []
  | f :: rest => finishStackAux f rest

/-- The tree builder: fold the token stream over the open-frame stack. -/
def buildAux : List Tok → List Frame → List Node
  | [], st => finishStack st
  | t :: ts, st =>
    match t with
    | Tok.data s => buildAux ts (addChild (Node.text s) st)
    | Tok.comment s => buildAux ts (addChild (Node.comment s) st)
    | Tok.decl s => buildAux ts (addChild (Node.doctype s) st)
    | Tok.start name attrs selfC =>
      if selfC || voidElems.contains name then
        buildAux ts (addChild (Node.elem name (dedupAttrs attrs) []) st)
      else buildAux ts ((name, dedupAttrs attrs, []) :: st)
    | Tok.close name =>
      if stackHasOpen name st then buildAux ts (popToTag name st)
      else buildAux ts st

/-- The name of the root frame; no real tag name can collide with it. -/
def rootName : Str := "#root".data

/-- BeautifulSoup(s, html.parser): the top-level node list of the parse. -/
def parseHTML (s : Str) : List Node :=
  buildAux (tokenizeAux (s.length + 1) s) [(rootName, [], [])]

/- ===================== Serialization (str on a tree) ===================== -/

/-- Minimal-formatter escaping of character data. -/
def escText : Str → Str
  | [] => []
  | '&' :: rest => "&amp;".data ++ escText rest
  | '<' :: rest => "&lt;".data ++ escText rest
  | '>' :: rest => "&gt;".data ++ escText rest
  | c :: rest => c :: escText rest

/-- Minimal-formatter escaping of attribute values. -/
def escAttr : Str → Str
  | [] => []
  | '&' :: rest => "&amp;".data ++ escAttr rest
  | '<' :: rest => "&lt;".data ++ escAttr rest
  | '>' :: rest => "&gt;".data ++ escAttr rest
  | '"' :: rest => "&quot;".data ++ escAttr rest
  | c :: rest => c :: escAttr rest

/-- Serialization of an attribute dict, in insertion order. -/
def serializeAttrs : List (Str × Str) → Str
  | [] => []
  | (k, v) :: rest =>
    ' ' :: (k ++ '=' :: '"' :: (escAttr v ++ '"' :: serializeAttrs rest))

mutual

/-- str(node): the BeautifulSoup serialization of one node. -/
def serializeN : Node → Str
  | Node.text s => escText s
  | Node.comment s => '<' :: '!' :: '-' :: '-' :: (s ++ "-->".data)
  | Node.doctype s => '<' :: '!' :: (s ++ ['>'])
  | Node.elem name attrs cs =>
    if voidElems.contains name && cs.isEmpty then
      '<' :: (name ++ serializeAttrs attrs ++ "/>".data)
    else
      '<' :: (name ++ serializeAttrs attrs ++ '>' ::
        ((if isRawTextName name then serializeRawL cs else serializeL cs) ++
          '<' :: '/' :: (name ++ ['>'])))

/-- Serialization of a node list. -/
def serializeL : List Node → Str
  | [] => []
  | n :: ns => serializeN n ++ serializeL ns

/-- Serialization of the children of a style or script element: character
data is emitted raw, without entity substitution. -/
def serializeRawL : List Node → Str
  | [] => []
  | Node.text s :: ns => s ++ serializeRawL ns
  | n :: ns => serializeN n ++ serializeRawL ns

end

/- ===================== Tree queries and edits ===================== -/

mutual

/-- find_all on one node: the node itself when the element predicate holds,
then its matching descendants, in document order. -/
def findAllN (p : Node → Bool) : Node → List Node
  | Node.elem nm at_ cs =>
    (if p (Node.elem nm at_ cs) then [Node.elem nm at_ cs] else []) ++
      findAllL p cs
  | _ => []

/-- find_all on a node list, in document order. -/
def findAllL (p : Node → Bool) : List Node → List Node
  | [] => []
  | n :: ns => findAllN p n ++ findAllL p ns

end

/-- soup.find: the first match of find_all. -/
def findFirstL (p : Node → Bool) (ns : List Node) : Option Node :=
  (findAllL p ns).head?

/-- Element-name predicate. -/
def isNamed (nm : Str) : Node → Bool
  | Node.elem name _ _ => name == nm
  | _ => false

/-- tag.get(key): attribute lookup. -/
def getAttr (attrs : List (Str × Str)) (k : Str) : Option Str :=
  (attrs.find? (fun kv => kv.1 == k)).map (fun kv => kv.2)

/-- tag.string: the text of the single child when that child is a string,
descending through a single element child, else nothing. -/
def nodeString : Node → Option Str
  | Node.elem _ _ [Node.text s] => some s
  | Node.elem _ _ [Node.elem nm at_ cs] => nodeString (Node.elem nm at_ cs)
  | _ => none

/-- The children of an element node. -/
def childrenOf : Node → List Node
  | Node.elem _ _ cs => cs
  | _ => []

mutual

/-- Removal of the comment nodes of one subtree (the extract pass over
body.find_all(string=Comment)). -/
def removeCommentsN : Node → Node
  | Node.elem nm at_ cs => Node.elem nm at_ (removeCommentsL cs)
  | n => n

/-- Removal of the comment nodes of a node list, at every depth. -/
def removeCommentsL : List Node → List Node
  | [] => []
  | Node.comment _ :: ns => removeCommentsL ns
  | n :: ns => removeCommentsN n :: removeCommentsL ns

end

/-- Is the node a style or script element? -/
def isStyleScript : Node → Bool
  | Node.elem name _ _ => isRawTextName name
  | _ => false

mutual

/-- decompose of every style and script element below one node. -/
def removeSSN : Node → Node
  | Node.elem nm at_ cs => Node.elem nm at_ (removeSSL cs)
  | n => n

/-- decompose of every style and script element of a node list. -/
def removeSSL : List Node → List Node
  | [] => []
  | n :: ns =>
    if isStyleScript n then removeSSL ns
    else removeSSN n :: removeSSL ns

end

mutual

/-- No style or script element anywhere in this subtree. -/
def cleanN : Node → Bool
  | Node.elem nm _ cs => !(isRawTextName nm) && cleanL cs
  | _ => true

/-- No style or script element anywhere in this node list. -/
def cleanL : List Node → Bool
  | [] => true
  | n :: ns => cleanN n && cleanL ns

end

/- ===================== extract_assets (core/utils.py) ===================== -/

/-- The style payload parts: the string of every style element that has a
truthy string, in document order (core/utils.py lines 130-133). -/
def styleParts (doc : Str) : List Str :=
  (findAllL (isNamed "style".data) (parseHTML doc)).filterMap fun n =>
    match nodeString n with
    | some s => if s = [] then none else some s
    | none => none

/-- The script payload parts: the string of every script element that has a
truthy string and no truthy src attribute (core/utils.py lines 136-139). -/
def scriptParts (doc : Str) : List Str :=
  (findAllL (isNamed "script".data) (parseHTML doc)).filterMap fun n =>
    match n with
    | Node.elem _ attrs _ =>
      match nodeString n with
      | some s =>
        if s = [] then none
        else
          match getAttr attrs "src".data with
          | none => some s
          | some v => if v = [] then some s else none
      | none => none
    | _ => none

/-- soup.find(body) of the parsed document. -/
def bodyNode (doc : Str) : Option Node :=
  findFirstL (isNamed "body".data) (parseHTML doc)

/-- Does the parsed document contain a body element? -/
def hasBody (doc : Str) : Bool := (bodyNode doc).isSome

/-- The body contents after the cleanup passes of extract_assets: comments
extracted, style and script elements decomposed. -/
def cleanedBodyContents (doc : Str) : List Node :=
  match bodyNode doc with
  | some b => removeSSL (removeCommentsL (childrenOf b))
  | none => []

/-- extract_assets from core/utils.py lines 125-156: CSS from every style
string, JS from every inline script string, and the serialized body
contents after comment extraction and style/script decomposition; without
a body element the raw input is passed through as the fragment.  The
container_id parameter is accepted and never used, exactly as in the
source.  The try/except fallback of the source is unreachable here since
the embedded parser is total. -/
def extract_assets (html_content : Str) (container_id : Str) : Str × Str × Str :=
  let css := joinNL (styleParts html_content)
  let js := joinNL (scriptParts html_content)
  let body_html :=
    match bodyNode html_content with
    | some b => serializeL (removeSSL (removeCommentsL (childrenOf b)))
    | none => html_content
  (stripWS body_html, stripWS css, stripWS js)

/- ============== rewrite_element_endpoint (main.py 98-157) ============== -/

/-- The marker attribute injected by the surgical-edit endpoint. -/
def markerAttr : Str := "data-neuro-edit-target".data

/-- soup.find over a parse for the first Tag: the first top-level element
node (every deeper element is preceded by its ancestor in document
order). -/
def firstTagL : List Node → Option Node
  | [] => none
  | Node.elem nm at_ cs :: _ => some (Node.elem nm at_ cs)
  | _ :: ns => firstTagL ns

/-- Injection of the marker attribute onto an element. -/
def addMarker : Node → Node
  | Node.elem nm at_ cs => Node.elem nm (insertAttr at_ (markerAttr, "true".data)) cs
  | n => n

/-- The user prompt of the surgical edit (main.py lines 129-132); the
apostrophe characters of the literal are written through squote. -/
def surgicalUserPrompt (marked_full_html prompt : Str) : Str :=
  "**Full HTML Document:**\n".data ++ "```html\n".data ++ marked_full_html ++
    "\n```\n\n".data ++ "**User".data ++ [squote] ++
    "s Instruction:**\n".data ++ [squote] ++ prompt ++ [squote] ++ "\n\n".data

/-- rewrite_element_endpoint from main.py lines 98-157, with the external
text oracle as an explicit function from the prompt it is sent to the text
it returns.  The selected element is parsed and its first tag re-serialized;
if that exact string does not occur in the full page the endpoint fails with
an explicit error before any modification; otherwise the marker attribute is
spliced in, the oracle is called, its response is isolated, and the assets
of the isolated document are returned.  No code path strips the marker from
the oracle response. -/
def rewrite_element_endpoint (prompt html selectedElementHtml : Str)
    (oracle : Str → Str) : Except Str (Str × Str × Str) :=
  match firstTagL (parseHTML selectedElementHtml) with
  | none => Except.error "Invalid selected element HTML.".data
  | some selected_tag =>
    let original_tag_str := serializeN selected_tag
    let marked_tag_with_attr := serializeN (addMarker selected_tag)
    if containsSub original_tag_str html = false then
      Except.error
        "The selected element could not be found in the full HTML document.".data
    else
      let marked_full_html := replaceFirst html original_tag_str marked_tag_with_attr
      let ai_response_text := oracle (surgicalUserPrompt marked_full_html prompt)
      let updated_full_html := isolate_and_clean_html ai_response_text
      if updated_full_html = [] then
        Except.error "AI returned an empty or invalid full HTML document.".data
      else
        Except.ok (extract_assets updated_full_html "some-id".data)

/-- The html of a successful endpoint result, when there is one. -/
def endpointHtml (r : Except Str (Str × Str × Str)) : Option Str :=
  match r with
  | Except.ok t => some t.1
  | Except.error _ => none

/- ===================== patch_html (app.py 258-290) ===================== -/

/-- extract_assets of app.py lines 136-150 (single argument): CSS joins
every style string with falsy strings as empty parts, JS joins the truthy
script strings with no src check, and the fragment is the serialized body
contents without any cleanup, or str(soup) without a body; only css and js
are stripped. -/
def extract_assets_app (html_content : Str) : Str × Str × Str :=
  let soup := parseHTML html_content
  let css := joinNL ((findAllL (isNamed "style".data) soup).map fun n =>
    (nodeString n).getD [])
  let js := joinNL ((findAllL (isNamed "script".data) soup).filterMap fun n =>
    match nodeString n with
    | some s => if s = [] then none else some s
    | none => none)
  let body_content :=
    match findFirstL (isNamed "body".data) soup with
    | some b => serializeL (childrenOf b)
    | none => serializeL soup
  (body_content, stripWS css, stripWS js)

mutual

/-- Replacement of the first element with the given name below one node;
the flag reports whether the replacement happened. -/
def replFN (nm : Str) (r : Node) : Node → Node × Bool
  | Node.elem name at_ cs =>
    if name == nm then (r, true)
    else
      let p := replFL nm r cs
      (Node.elem name at_ p.1, p.2)
  | n => (n, false)

/-- Replacement of the first element with the given name in a node list. -/
def replFL (nm : Str) (r : Node) : List Node → List Node × Bool
  | [] => ([], false)
  | n :: ns =>
    let p := replFN nm r n
    if p.2 then (p.1 :: ns, true)
    else
      let q := replFL nm r ns
      (n :: q.1, q.2)

end

/-- patch_html from app.py lines 258-290.  The selector of select_one is
modelled for plain type selectors (a bare tag name), the only selector form
the claims exercise; the caller fragment is wrapped in a body element, the
first matching element is replaced with the first parsed node of the new
snippet, and the patched soup is re-split.  When the selector matches
nothing the endpoint fails with an explicit error before any
modification. -/
def patch_html (html selector new_snippet : Str) : Except Str (Str × Str × Str) :=
  let soup := parseHTML ("<body>".data ++ html ++ "</body>".data)
  match findFirstL (isNamed selector) soup with
  | none => Except.error "Selector not found.".data
  | some _ =>
    if stripWS new_snippet = [] then Except.error "New snippet is empty.".data
    else
      match (parseHTML new_snippet).head? with
      | none => Except.error "Failed to parse new snippet.".data
      | some new_tag =>
        Except.ok (extract_assets_app (serializeL (replFL selector new_tag soup).1))

/- ===================== Substring lemmas ===================== -/

theorem startsWith_append_self (p t : Str) : startsWith p (p ++ t) = true := by
  induction p with
  | nil => simp [startsWith]
  | cons c cs ih => simp [startsWith, ih]

theorem startsWith_exists {p s : Str} (h : startsWith p s = true) :
    ∃ t, s = p ++ t := by
  induction p generalizing s with
  | nil => exact ⟨s, rfl⟩
  | cons c cs ih =>
    cases s with
    | nil => simp [startsWith] at h
    | cons d ds =>
      simp only [startsWith, Bool.and_eq_true, beq_iff_eq] at h
      obtain ⟨rfl, h2⟩ := h
      obtain ⟨t, rfl⟩ := ih h2
      exact ⟨t, rfl⟩

theorem findSub_of_startsWith {p s : Str} (h : startsWith p s = true) :
    findSub p s = some 0 := by
  cases s <;> simp [findSub, h]

theorem contains_cons {p : Str} (c : Char) {s : Str}
    (h : containsSub p s = true) : containsSub p (c :: s) = true := by
  by_cases hs : startsWith p (c :: s) = true
  · simp [containsSub, findSub, hs]
  · simp only [containsSub, findSub, hs, if_false, Bool.if_false_left]
    simp only [containsSub] at h
    simpa using h

theorem contains_append_mid (u pat v : Str) :
    containsSub pat (u ++ (pat ++ v)) = true := by
  induction u with
  | nil =>
    simp only [List.nil_append, containsSub]
    rw [findSub_of_startsWith (startsWith_append_self pat v)]
    rfl
  | cons c cs ih => exact contains_cons c ih

theorem contains_exists {pat s : Str} (h : containsSub pat s = true) :
    ∃ u v, s = u ++ (pat ++ v) := by
  induction s with
  | nil =>
    cases pat with
    | nil => exact ⟨[], [], rfl⟩
    | cons c cs => simp [containsSub, findSub, startsWith] at h
  | cons d ds ih =>
    by_cases hs : startsWith pat (d :: ds) = true
    · obtain ⟨t, ht⟩ := startsWith_exists hs
      exact ⟨[], t, ht⟩
    · simp only [containsSub, findSub, hs] at h
      have h2 : containsSub pat ds = true := by
        simp only [containsSub]
        simpa using h
      obtain ⟨u, v, rfl⟩ := ih h2
      exact ⟨d :: u, v, rfl⟩

theorem contains_reverse {pat s : Str} (h : containsSub pat s = true) :
    containsSub pat.reverse s.reverse = true := by
  obtain ⟨u, v, rfl⟩ := contains_exists h
  rw [List.reverse_append, List.reverse_append, List.append_assoc]
  exact contains_append_mid v.reverse pat.reverse u.reverse

theorem contains_dropWhile (q : Char → Bool) {pat s : Str}
    (hh : ∃ c ps, pat = c :: ps ∧ q c = false)
    (h : containsSub pat s = true) :
    containsSub pat (s.dropWhile q) = true := by
  induction s with
  | nil =>
    obtain ⟨c, ps, rfl, _⟩ := hh
    simp [containsSub, findSub, startsWith] at h
  | cons d ds ih =>
    by_cases hd : q d = true
    · simp only [List.dropWhile_cons, hd, if_true]
      apply ih
      obtain ⟨c, ps, hp, hc⟩ := hh
      have hs : startsWith pat (d :: ds) = false := by
        subst hp
        simp only [startsWith, Bool.and_eq_false_iff, beq_eq_false_iff_ne]
        left
        intro he
        rw [he] at hc
        rw [hd] at hc
        exact Bool.true_eq_false.mp hc
      simp only [containsSub, findSub, hs] at h
      simp only [containsSub]
      simpa using h
    · simpa [List.dropWhile_cons, hd] using h

theorem contains_stripBoth (q : Char → Bool) {pat s : Str}
    (hhead : ∃ c ps, pat = c :: ps ∧ q c = false)
    (hlast : ∃ c ps, pat.reverse = c :: ps ∧ q c = false)
    (hc : containsSub pat s = true) :
    containsSub pat (stripBoth q s) = true := by
  unfold stripBoth
  have h1 := contains_dropWhile q hhead hc
  have h2 := contains_reverse h1
  have h3 := contains_dropWhile q hlast h2
  have h4 := contains_reverse h3
  rwa [List.reverse_reverse] at h4

/- ===================== findAnyCI lemmas ===================== -/

theorem findAnyCI_of_starts {pats : List Str} {s : Str}
    (h : startsAnyCI pats s = true) : findAnyCI pats s = some 0 := by
  cases s <;> simp [findAnyCI, h]

theorem findAnyCI_drop_self {pats : List Str} {s : Str} {i : Nat}
    (h : findAnyCI pats s = some i) : findAnyCI pats (s.drop i) = some 0 := by
  induction s generalizing i with
  | nil =>
    by_cases hs : startsAnyCI pats [] = true
    · simp only [findAnyCI, hs, if_true, Option.some.injEq] at h
      subst h
      simpa [findAnyCI] using hs
    · simp [findAnyCI, hs] at h
  | cons c cs ih =>
    by_cases hs : startsAnyCI pats (c :: cs) = true
    · simp only [findAnyCI, hs, if_true, Option.some.injEq] at h
      subst h
      exact findAnyCI_of_starts hs
    · simp only [findAnyCI, hs, Bool.false_eq_true, if_false, List.tail_cons,
        Option.map_eq_some'] at h
      obtain ⟨j, hj, rfl⟩ := h
      simpa using ih hj

theorem findAnyCI_none_tail {pats : List Str} {s : Str}
    (h : findAnyCI pats s = none) : findAnyCI pats s.tail = none := by
  cases s with
  | nil => simpa using h
  | cons c cs =>
    by_cases hs : startsAnyCI pats (c :: cs) = true
    · simp [findAnyCI, hs] at h
    · simp only [findAnyCI, hs, Bool.false_eq_true, if_false, List.tail_cons,
        Option.map_eq_none'] at h
      simpa using h

theorem findAnyCI_none_drop {pats : List Str} {s : Str}
    (h : findAnyCI pats s = none) (i : Nat) :
    findAnyCI pats (s.drop i) = none := by
  induction i generalizing s with
  | zero => simpa using h
  | succ n ih =>
    cases s with
    | nil => simpa using h
    | cons c cs =>
      have := findAnyCI_none_tail h
      simpa using ih (s := cs) (by simpa using this)

/- ===================== C8 and C9: the chatter isolator ===================== -/

/-- Claim C8: the Chatter Isolator is idempotent: for every input string,
isolating an already-isolated result returns it unchanged.  Confirms the
claim as stated against isolate_and_clean_html of core/utils.py. -/
theorem c8_isolate_idempotent (raw : Str) :
    isolate_and_clean_html (isolate_and_clean_html raw) =
      isolate_and_clean_html raw := by
  by_cases h0 : raw = []
  · subst h0; rfl
  · cases h1 : findAnyCI [doctypeTok] raw with
    | some i =>
      have hres : isolate_and_clean_html raw = raw.drop i := by
        simp [isolate_and_clean_html, h0, h1]
      have h2 := findAnyCI_drop_self h1
      have hne : raw.drop i ≠ [] := by
        intro he
        rw [he] at h2
        exact absurd h2 (by decide)
      rw [hres]
      simp [isolate_and_clean_html, hne, h2]
    | none =>
      cases h3 : findAnyCI [htmlTok] raw with
      | some i =>
        have hres : isolate_and_clean_html raw = raw.drop i := by
          simp [isolate_and_clean_html, h0, h1, h3]
        have h4 := findAnyCI_drop_self h3
        have hne : raw.drop i ≠ [] := by
          intro he
          rw [he] at h4
          exact absurd h4 (by decide)
        rw [hres]
        simp [isolate_and_clean_html, hne, findAnyCI_none_drop h1 i, h4]
      | none =>
        cases h5 : findAnyCI fallbackToks raw with
        | some i =>
          have hres : isolate_and_clean_html raw = raw.drop i := by
            simp [isolate_and_clean_html, h0, h1, h3, h5]
          have h6 := findAnyCI_drop_self h5
          have hne : raw.drop i ≠ [] := by
            intro he
            rw [he] at h6
            exact absurd h6 (by decide)
          rw [hres]
          simp [isolate_and_clean_html, hne, findAnyCI_none_drop h1 i,
            findAnyCI_none_drop h3 i, h6]
        | none =>
          have hres : isolate_and_clean_html raw = [] := by
            simp [isolate_and_clean_html, h0, h1, h3, h5]
          rw [hres]
          rfl

/-- A fenced oracle response whose fence interior holds a full document:
chatter before the fence, a markdown fence, and chatter after it. -/
def fencedResponse : Str :=
  "Chatter\n```html\n<!DOCTYPE html><html></html>\n```\nBye".data

/-- The interior of the markdown fence of fencedResponse. -/
def fenceInterior : Str := "<!DOCTYPE html><html></html>".data

/-- Claim C9 (counterexample): isolate_and_clean_html does not return the
interior content of the markdown fence: on fencedResponse it keeps the
closing fence and the trailing chatter, so its result differs from the
fence interior.  The claim as stated is false on the code. -/
theorem c9_counterexample :
    isolate_and_clean_html fencedResponse ≠ fenceInterior := by decide

/-- Claim C9 (amended): for every input in which the document root marker
occurs (first occurrence at index i, case-insensitively), the isolator
returns the suffix of the input from that marker: the chatter before a
fence is discarded, but the closing fence and any text after it are
retained rather than only the fence interior being returned. -/
theorem c9_amended_suffix_from_marker (raw : Str) (i : Nat)
    (h : findAnyCI [doctypeTok] raw = some i) :
    isolate_and_clean_html raw = raw.drop i := by
  have hraw : raw ≠ [] := by
    intro he
    subst he
    have hnone : findAnyCI [doctypeTok] ([] : Str) = none := by decide
    rw [hnone] at h
    exact Option.noConfusion h
  simp [isolate_and_clean_html, hraw, h]

/-- Witness for the amended C9 at the concrete fenced input: the marker
sits at index 16 and the result is the suffix from the marker, including
the closing fence and the trailing chatter. -/
theorem c9_amended_suffix_from_marker_witness :
    isolate_and_clean_html fencedResponse =
      "<!DOCTYPE html><html></html>\n```\nBye".data :=
  (c9_amended_suffix_from_marker fencedResponse 16 (by decide)).trans
    (by decide)

/- ===================== Patch parser lemmas ===================== -/

theorem parseBlocksAux_of_no_start {n : Nat} {s : Str}
    (h : splitAtSub SEARCH_START s = none) : parseBlocksAux n s = [] := by
  cases n with
  | zero => rfl
  | succ m => simp [parseBlocksAux, h]

theorem parseBlocks_guards {p : Str} (h : parseBlocks p ≠ []) :
    p ≠ [] ∧ containsSub SEARCH_START p = true := by
  constructor
  · intro he
    subst he
    exact h rfl
  · by_contra hc
    have hn : findSub SEARCH_START p = none := by
      rcases hf : findSub SEARCH_START p with _ | i
      · rfl
      · exact absurd (by simp [containsSub, hf]) hc
    exact h (parseBlocksAux_of_no_start (by simp [splitAtSub, hn]))

theorem apply_eq_foldl (D : Str) {p : Str} (h : parseBlocks p ≠ []) :
    apply_diff_patch D p = ((parseBlocks p).reverse).foldl applyBlock D := by
  obtain ⟨hp, hc⟩ := parseBlocks_guards h
  simp [apply_diff_patch, hp, hc, h]

/- ===================== C6: malformed patches are safe ===================== -/

/-- Claim C6: apply_diff_patch is total and conservative: an empty patch
returns the original unchanged, a patch with no recognizable block returns
the original unchanged, a block whose stripped search text is absent from
the running result leaves it unchanged, and whenever blocks exist the
result is exactly the fold of the per-block step over all of them, so a
skipped block never aborts the remaining blocks.  Confirms the claim; the
function is total in this embedding, so it never raises. -/
theorem c6_malformed_patch_safe :
    (∀ D : Str, apply_diff_patch D [] = D) ∧
    (∀ D p : Str, parseBlocks p = [] → apply_diff_patch D p = D) ∧
    (∀ (modified : Str) (b : Str × Str), stripWS (stripNL b.1) ≠ [] →
      containsSub (stripNL b.1) modified = false →
      applyBlock modified b = modified) ∧
    (∀ D p : Str, parseBlocks p ≠ [] →
      apply_diff_patch D p = ((parseBlocks p).reverse).foldl applyBlock D) := by
  refine ⟨fun D => rfl, fun D p h => ?_, fun m b h1 h2 => ?_, fun D p h => apply_eq_foldl D h⟩
  · by_cases h1 : p = [] ∨ containsSub SEARCH_START p = false
    · simp [apply_diff_patch, h1]
    · simp [apply_diff_patch, h1, h]
  · simp [applyBlock, h1, h2]

/-- Witness for C6 at concrete inputs: the empty patch, a patch with no
sentinel blocks, a block with an unmatched search text, and a two-block
patch where the fold shape is exhibited. -/
theorem c6_malformed_patch_safe_witness :
    apply_diff_patch "abc".data [] = "abc".data ∧
    apply_diff_patch "abc".data "no blocks in here".data = "abc".data ∧
    applyBlock "xyz".data ("q".data, "r".data) = "xyz".data ∧
    apply_diff_patch "a".data
        "<<<<<<< SEARCHq=======r>>>>>>> REPLACE<<<<<<< SEARCHa=======z>>>>>>> REPLACE".data =
      ((parseBlocks
        "<<<<<<< SEARCHq=======r>>>>>>> REPLACE<<<<<<< SEARCHa=======z>>>>>>> REPLACE".data).reverse).foldl
        applyBlock "a".data :=
  ⟨c6_malformed_patch_safe.1 "abc".data,
   c6_malformed_patch_safe.2.1 "abc".data "no blocks in here".data (by decide),
   c6_malformed_patch_safe.2.2.1 "xyz".data ("q".data, "r".data) (by decide) (by decide),
   c6_malformed_patch_safe.2.2.2 "a".data _ (by decide)⟩

/- ===================== C5: first-occurrence replacement ===================== -/

/-- Claim C5: a patch parsing to the single block (S, R) with S free of edge
newlines and not whitespace-only, applied to a document in which S first
occurs at index i, replaces exactly that first occurrence, leaving the
prefix before it and the suffix after it (and so every other occurrence of
S) unchanged; and applying the same patch to any document in which S does
not occur changes nothing.  Confirms the claim. -/
theorem c5_first_occurrence_only (D S R p : Str) (i : Nat)
    (hparse : parseBlocks p = [(S, R)])
    (hS : stripNL S = S) (hR : stripNL R = R)
    (hNE : stripWS S ≠ [])
    (hfind : findSub S D = some i) :
    apply_diff_patch D p = D.take i ++ (R ++ D.drop (i + S.length)) ∧
    (∀ Dp : Str, containsSub S Dp = false → apply_diff_patch Dp p = Dp) := by
  have hne : parseBlocks p ≠ [] := by rw [hparse]; simp
  constructor
  · rw [apply_eq_foldl D hne, hparse]
    have hcont : containsSub S D = true := by simp [containsSub, hfind]
    simp [List.foldl, applyBlock, hS, hR, hNE, hcont, replaceFirst, hfind]
  · intro Dp hDp
    rw [apply_eq_foldl Dp hne, hparse]
    simp [List.foldl, applyBlock, hS, hR, hNE, hDp]

/-- Witness for C5: the single block (A, B) on xAyAz rewrites only the
first A, leaving the second occurrence intact; the same patch on a document
without A is a no-op, so a second application after the patch consumed the
only occurrence would change nothing. -/
theorem c5_first_occurrence_only_witness :
    apply_diff_patch "xAyAz".data "<<<<<<< SEARCHA=======B>>>>>>> REPLACE".data =
      "xByAz".data ∧
    apply_diff_patch "q".data "<<<<<<< SEARCHA=======B>>>>>>> REPLACE".data =
      "q".data := by
  have h := c5_first_occurrence_only "xAyAz".data "A".data "B".data
    "<<<<<<< SEARCHA=======B>>>>>>> REPLACE".data 1
    (by decide) (by decide) (by decide) (by decide) (by decide)
  exact ⟨h.1.trans (by decide), h.2 "q".data (by decide)⟩

/- ===================== C10: newline stripping of blocks ===================== -/

theorem length_dropWhile_le' (q : Char → Bool) (l : Str) :
    (List.dropWhile q l).length ≤ l.length := by
  induction l with
  | nil => simp
  | cons c cs ih =>
    by_cases h : q c = true
    · simp only [List.dropWhile_cons, h, if_true, List.length_cons]
      omega
    · simp [List.dropWhile_cons, h]

theorem dropWhile_replicate_append (q : Char → Bool) (c : Char) (n : Nat)
    (s : Str) (hq : q c = true) :
    List.dropWhile q (List.replicate n c ++ s) = List.dropWhile q s := by
  induction n with
  | zero => simp
  | succ m ih => simp [List.replicate_succ, List.dropWhile_cons, hq, ih]

theorem stripNL_pad (S : Str) (a b : Nat)
    (h1 : S.dropWhile isNLc = S) (h2 : S.reverse.dropWhile isNLc = S.reverse) :
    stripNL (List.replicate a '\n' ++ (S ++ List.replicate b '\n')) = S := by
  have hnl : isNLc '\n' = true := by decide
  cases S with
  | nil =>
    simp only [List.nil_append, stripNL, stripBoth]
    rw [dropWhile_replicate_append _ _ _ _ hnl]
    have : List.dropWhile isNLc (List.replicate b '\n') = [] := by
      have := dropWhile_replicate_append isNLc '\n' b [] hnl
      simpa using this
    rw [this]
    rfl
  | cons c cs =>
    have hc : isNLc c = false := by
      by_cases h : isNLc c = true
      · exfalso
        have hlen := congrArg List.length h1
        simp only [List.dropWhile_cons, h, if_true] at hlen
        have := length_dropWhile_le' isNLc cs
        simp only [List.length_cons] at hlen
        omega
      · simpa using h
    simp only [stripNL, stripBoth]
    rw [dropWhile_replicate_append _ _ _ _ hnl]
    have hstep : List.dropWhile isNLc ((c :: cs) ++ List.replicate b '\n') =
        (c :: cs) ++ List.replicate b '\n' := by
      simp [List.dropWhile_cons, hc]
    rw [hstep]
    rw [List.reverse_append, List.reverse_replicate]
    rw [dropWhile_replicate_append _ _ _ _ hnl]
    rw [h2, List.reverse_reverse]

/-- Claim C10: before matching or inserting, apply_diff_patch strips the
newline characters adjacent to the sentinel delimiters from each parsed
search and replace block: a patch whose single block carries S and R padded
with any number of leading and trailing newlines behaves exactly as the
bare block (S, R) — a whitespace-only S prepends R plus a newline, and
otherwise S must occur verbatim (all interior whitespace exact) for its
first occurrence to be replaced.  Confirms the claim. -/
theorem c10_block_newline_stripping (D S R p : Str) (a b c d : Nat)
    (hparse : parseBlocks p =
      [(List.replicate a '\n' ++ (S ++ List.replicate b '\n'),
        List.replicate c '\n' ++ (R ++ List.replicate d '\n'))])
    (hS1 : S.dropWhile isNLc = S) (hS2 : S.reverse.dropWhile isNLc = S.reverse)
    (hR1 : R.dropWhile isNLc = R) (hR2 : R.reverse.dropWhile isNLc = R.reverse) :
    apply_diff_patch D p =
      (if stripWS S = [] then R ++ '\n' :: D
       else if containsSub S D = true then replaceFirst D S R else D) := by
  have hne : parseBlocks p ≠ [] := by rw [hparse]; simp
  rw [apply_eq_foldl D hne, hparse]
  simp only [List.reverse_cons, List.reverse_nil, List.nil_append, List.foldl]
  unfold applyBlock
  simp only [stripNL_pad S a b hS1 hS2, stripNL_pad R c d hR1 hR2]

/-- Witness for C10: the canonical patch layout with one newline on each
side of the sentinels matches the document text that carries no such
newlines, and replaces its first occurrence. -/
theorem c10_block_newline_stripping_witness :
    apply_diff_patch "xAy".data
      "<<<<<<< SEARCH\nA\n=======\nB\n>>>>>>> REPLACE".data = "xBy".data := by
  have h := c10_block_newline_stripping "xAy".data "A".data "B".data
    "<<<<<<< SEARCH\nA\n=======\nB\n>>>>>>> REPLACE".data 1 1 1 1
    (by decide) (by decide) (by decide) (by decide) (by decide)
  exact h.trans (by decide)

/- ===================== C3: block processing order ===================== -/

/-- A two-block patch whose blocks are order-sensitive: the first block
rewrites a to b and the second rewrites b to c. -/
def c3patch : Str :=
  "<<<<<<< SEARCH\na\n=======\nb\n>>>>>>> REPLACE\n<<<<<<< SEARCH\nb\n=======\nc\n>>>>>>> REPLACE".data

/-- Claim C3 (counterexample): apply_diff_patch does not process the blocks
in the order they appear.  On document a and a patch whose first block maps
a to b and whose second block maps b to c, in-appearance-order processing
(apply_diff_patch_specOrder, written from the words of the spec) yields c,
but the code iterates over reversed(matches) and yields b.  The claim as
stated is false on the code. -/
theorem c3_counterexample :
    apply_diff_patch "a".data c3patch = "b".data ∧
    apply_diff_patch_specOrder "a".data c3patch = "c".data ∧
    apply_diff_patch "a".data c3patch ≠
      apply_diff_patch_specOrder "a".data c3patch := by decide

/-- Claim C3 (amended): apply_diff_patch processes the parsed blocks in
reverse order of appearance: for a patch parsing to the blocks b1 then b2,
the block appearing last in the patch text is applied to the document
first, and the earlier block is applied to the result; a block whose search
text strips to whitespace-only prepends its stripped replace text followed
by a newline to the running result. -/
theorem c3_amended_reverse_order (D p : Str) (b1 b2 : Str × Str)
    (hparse : parseBlocks p = [b1, b2]) :
    apply_diff_patch D p = applyBlock (applyBlock D b2) b1 ∧
    (∀ (acc rep sb : Str), stripWS (stripNL sb) = [] →
      applyBlock acc (sb, rep) = stripNL rep ++ '\n' :: acc) := by
  have hne : parseBlocks p ≠ [] := by rw [hparse]; simp
  constructor
  · rw [apply_eq_foldl D hne, hparse]
    simp [List.foldl]
  · intro acc rep sb h
    simp [applyBlock, h]

/-- Witness for the amended C3: two pure insertion blocks P then Q end up
with P outermost because Q is processed first, and a whitespace-only search
block prepends its replacement plus a newline. -/
theorem c3_amended_reverse_order_witness :
    apply_diff_patch "D".data
      "<<<<<<< SEARCH\n\n=======\nP\n>>>>>>> REPLACE\n<<<<<<< SEARCH\n\n=======\nQ\n>>>>>>> REPLACE".data =
      "P\nQ\nD".data ∧
    applyBlock "Z".data ([], "W".data) = "W\nZ".data := by
  have h := c3_amended_reverse_order "D".data
    "<<<<<<< SEARCH\n\n=======\nP\n>>>>>>> REPLACE\n<<<<<<< SEARCH\n\n=======\nQ\n>>>>>>> REPLACE".data
    ("\n\n".data, "\nP\n".data) ("\n\n".data, "\nQ\n".data) (by decide)
  exact ⟨h.1.trans (by decide), (h.2 "Z".data "W".data [] (by decide)).trans (by decide)⟩

/- ===================== Tree cleanliness lemmas ===================== -/

mutual

theorem cleanN_removeSSN : ∀ n : Node, isStyleScript n = false →
    cleanN (removeSSN n) = true
  | Node.elem nm at_ cs, h => by
    simp only [removeSSN, cleanN, Bool.and_eq_true, Bool.not_eq_eq_eq_not,
      Bool.not_true]
    refine ⟨?_, cleanL_removeSSL cs⟩
    simpa [isStyleScript] using h
  | Node.text _, _ => rfl
  | Node.comment _, _ => rfl
  | Node.doctype _, _ => rfl

theorem cleanL_removeSSL : ∀ ns : List Node, cleanL (removeSSL ns) = true
  | [] => rfl
  | n :: ns => by
    by_cases hss : isStyleScript n = true
    · simp only [removeSSL, hss, if_true]
      exact cleanL_removeSSL ns
    · have hn := cleanN_removeSSN n (by simpa using hss)
      simp only [removeSSL, hss, Bool.false_eq_true, if_false, cleanL,
        Bool.and_eq_true]
      exact ⟨hn, cleanL_removeSSL ns⟩

end

/- ===================== C1: the concrete build scenario ===================== -/

/-- The concrete document of the C1 scenario. -/
def c1doc : Str :=
  "<!DOCTYPE html><html><body><style>.a{color:red}</style><h1>Hi</h1></body></html>".data

/-- Claim C1 (counterexample): on the concrete scenario document with
containerId c1, the split-then-scope pipeline of the build path, which is
extract_assets alone, does not produce the scoped css the claim asserts:
no code in the repository prefixes selectors with the container id, and
extract_assets ignores its container_id parameter, so the css channel keeps
the selector unscoped.  The claim as stated is false on the code. -/
theorem c1_counterexample :
    extract_assets c1doc "c1".data ≠
      ("<h1>Hi</h1>".data, "#c1 .a{color:red}".data, ([] : Str)) := by decide

/-- Claim C1 (amended): on the concrete scenario document with containerId
c1, extract_assets yields fragment h1 Hi, css equal to the original
unscoped rule text, and empty js; the container id has no effect on any
channel. -/
theorem c1_amended_unscoped_css :
    extract_assets c1doc "c1".data =
      ("<h1>Hi</h1>".data, ".a{color:red}".data, ([] : Str)) ∧
    extract_assets c1doc "c1".data = extract_assets c1doc "other".data := by
  decide

/- ===================== C2: fragment style/script freedom ===================== -/

/-- A document with no body element: extract_assets falls through to the
raw input as the fragment. -/
def c2doc : Str := "<style>.a{}</style>".data

/-- Claim C2 (counterexample): the fragment of extract_assets is not always
free of style and script nodes: on a document without a body element the
raw input, here a bare style element, is returned as the fragment
unchanged.  The universally quantified claim is false on the code. -/
theorem c2_counterexample :
    (extract_assets c2doc "c".data).1 = "<style>.a{}</style>".data ∧
    containsSub "<style>".data (extract_assets c2doc "c".data).1 = true := by
  decide

theorem extract_assets_fst_of_hasBody (D C : Str) (h : hasBody D = true) :
    (extract_assets D C).1 = stripWS (serializeL (cleanedBodyContents D)) := by
  have hb' : ∃ b, bodyNode D = some b := by
    cases hb : bodyNode D with
    | none => rw [hasBody, hb] at h; simp at h
    | some b => exact ⟨b, rfl⟩
  obtain ⟨b, hb⟩ := hb'
  simp [extract_assets, cleanedBodyContents, hb]

/-- Claim C2 (amended): whenever the parsed document has a body element,
the fragment of extract_assets is the serialization of the cleaned body
contents, and those contents hold no style or script element at any depth;
the styleText and scriptText channels are total string results (never null)
by construction, for every input. -/
theorem c2_amended_no_style_script_under_body (D C : Str)
    (h : hasBody D = true) :
    cleanL (cleanedBodyContents D) = true ∧
    (extract_assets D C).1 = stripWS (serializeL (cleanedBodyContents D)) := by
  constructor
  · unfold cleanedBodyContents
    cases hb : bodyNode D with
    | none => rfl
    | some b => exact cleanL_removeSSL _
  · exact extract_assets_fst_of_hasBody D C h

/-- Witness for the amended C2 at a concrete document with a body holding a
style, a script and a paragraph: the hypothesis holds and the cleaned
fragment is exactly the paragraph. -/
theorem c2_amended_no_style_script_under_body_witness :
    hasBody "<body><style>s{}</style><p>x</p><script>f()</script></body>".data = true ∧
    (cleanL (cleanedBodyContents
        "<body><style>s{}</style><p>x</p><script>f()</script></body>".data) = true ∧
      (extract_assets
          "<body><style>s{}</style><p>x</p><script>f()</script></body>".data
          "c".data).1 =
        stripWS (serializeL (cleanedBodyContents
          "<body><style>s{}</style><p>x</p><script>f()</script></body>".data))) :=
  ⟨by decide,
   c2_amended_no_style_script_under_body
     "<body><style>s{}</style><p>x</p><script>f()</script></body>".data
     "c".data (by decide)⟩

/- ===================== C7: fail-closed element location ===================== -/

/-- Claim C7: when the target element cannot be located, both element
replacement endpoints fail closed with an explicit error and return no
document at all, for every oracle: the rewrite endpoint of main.py errors
before any modification when the serialized selected tag does not occur in
the page, and patch_html of app.py errors when the selector matches no
element — so a partially mutated document is never produced.  The caller
keeps the original document unmodified.  Confirms the claim. -/
theorem c7_fail_closed (prompt html sel s : Str) (oracle : Str → Str)
    (hfound : (firstTagL (parseHTML sel)).map serializeN = some s)
    (hmiss : containsSub s html = false) :
    rewrite_element_endpoint prompt html sel oracle =
      Except.error
        "The selected element could not be found in the full HTML document.".data ∧
    (∀ selector snippet : Str,
      (findFirstL (isNamed selector)
        (parseHTML ("<body>".data ++ html ++ "</body>".data))).isNone = true →
      patch_html html selector snippet =
        Except.error "Selector not found.".data) := by
  constructor
  · cases hft : firstTagL (parseHTML sel) with
    | none => rw [hft] at hfound; simp at hfound
    | some t =>
      rw [hft] at hfound
      simp only [Option.map_some', Option.some.injEq] at hfound
      subst hfound
      simp [rewrite_element_endpoint, hft, hmiss]
  · intro selector snippet h2
    have h3 : findFirstL (isNamed selector)
        (parseHTML ("<body>".data ++ html ++ "</body>".data)) = none :=
      Option.isNone_iff_eq_none.mp h2
    simp only [patch_html]
    rw [h3]

/-- Witness for C7: a selected h1 absent from a div-only page makes the
rewrite endpoint fail with the explicit error for every echoing oracle, and
an h2 selector over the same page makes patch_html fail with its explicit
error. -/
theorem c7_fail_closed_witness :
    rewrite_element_endpoint "p".data "<div></div>".data "<h1>Hi</h1>".data
        (fun r => r) =
      Except.error
        "The selected element could not be found in the full HTML document.".data ∧
    patch_html "<div></div>".data "h2".data "<p>y</p>".data =
      Except.error "Selector not found.".data := by
  have h := c7_fail_closed "p".data "<div></div>".data "<h1>Hi</h1>".data
    "<h1>Hi</h1>".data (fun r => r) (by decide) (by decide)
  exact ⟨h.1, h.2 "h2".data "<p>y</p>".data (by decide)⟩

/- ===================== C4: the marker attribute ===================== -/

/-- Does the attribute dict carry this key? -/
def hasAttrKey (k : Str) (attrs : List (Str × Str)) : Bool :=
  attrs.any (fun kv => kv.1 == k)

mutual

/-- Does some element of this subtree carry the attribute key? -/
def anyElemWithAttrN (k : Str) : Node → Bool
  | Node.elem _ at_ cs => hasAttrKey k at_ || anyElemWithAttrL k cs
  | _ => false

/-- Does some element of this node list carry the attribute key? -/
def anyElemWithAttrL (k : Str) : List Node → Bool
  | [] => false
  | n :: ns => anyElemWithAttrN k n || anyElemWithAttrL k ns

end

theorem contains_append_right {pat y : Str} (x : Str)
    (h : containsSub pat y = true) : containsSub pat (x ++ y) = true := by
  obtain ⟨u, v, rfl⟩ := contains_exists h
  rw [← List.append_assoc]
  exact contains_append_mid (x ++ u) pat v

theorem contains_append_left {pat x : Str} (y : Str)
    (h : containsSub pat x = true) : containsSub pat (x ++ y) = true := by
  obtain ⟨u, v, rfl⟩ := contains_exists h
  rw [List.append_assoc, List.append_assoc]
  exact contains_append_mid u pat (v ++ y)

theorem serializeAttrs_contains {k : Str} : ∀ {attrs : List (Str × Str)},
    hasAttrKey k attrs = true → containsSub k (serializeAttrs attrs) = true := by
  intro attrs h
  induction attrs with
  | nil => simp [hasAttrKey] at h
  | cons kv rest ih =>
    by_cases hk : kv.1 == k
    · have hk' : kv.1 = k := by simpa using hk
      show containsSub k
        (' ' :: (kv.1 ++ '=' :: '"' :: (escAttr kv.2 ++ '"' :: serializeAttrs rest))) = true
      rw [hk']
      exact contains_cons ' ' (by
        simpa using contains_append_mid [] k
          ('=' :: '"' :: (escAttr kv.2 ++ '"' :: serializeAttrs rest)))
    · have hrest : hasAttrKey k rest = true := by
        simp only [hasAttrKey, List.any_cons, Bool.or_eq_true] at h
        rcases h with h | h
        · exact absurd h hk
        · exact h
      have h1 := ih hrest
      show containsSub k
        (' ' :: (kv.1 ++ '=' :: '"' :: (escAttr kv.2 ++ '"' :: serializeAttrs rest))) = true
      exact contains_cons ' ' (contains_append_right kv.1
        (contains_cons '=' (contains_cons '"'
          (contains_append_right (escAttr kv.2) (contains_cons '"' h1)))))

mutual

theorem serializeN_contains_attr (k : Str) : ∀ n : Node,
    anyElemWithAttrN k n = true → containsSub k (serializeN n) = true
  | Node.elem nm at_ cs, h => by
    simp only [anyElemWithAttrN, Bool.or_eq_true] at h
    rcases h with h | h
    · have h1 := serializeAttrs_contains h
      simp only [serializeN]
      by_cases hv : voidElems.contains nm && cs.isEmpty
      · simp only [hv, if_true]
        exact contains_cons '<'
          (contains_append_left _ (contains_append_right nm h1))
      · simp only [hv, Bool.false_eq_true, if_false]
        exact contains_cons '<'
          (contains_append_left _ (contains_append_right nm h1))
    · have h2 : containsSub k
          (if isRawTextName nm then serializeRawL cs else serializeL cs) = true := by
        by_cases hr : isRawTextName nm
        · simpa [hr] using serializeRawL_contains_attr k cs h
        · simpa [hr] using serializeL_contains_attr k cs h
      simp only [serializeN]
      by_cases hv : voidElems.contains nm && cs.isEmpty
      · exfalso
        have : cs = [] := by
          simp only [Bool.and_eq_true, List.isEmpty_iff] at hv
          exact hv.2
        subst this
        simp [anyElemWithAttrL] at h
      · simp only [hv, Bool.false_eq_true, if_false]
        exact contains_cons '<' (contains_append_right (nm ++ serializeAttrs at_)
          (contains_cons '>' (contains_append_left _ h2)))

theorem serializeL_contains_attr (k : Str) : ∀ ns : List Node,
    anyElemWithAttrL k ns = true → containsSub k (serializeL ns) = true
  | n :: ns, h => by
    simp only [anyElemWithAttrL, Bool.or_eq_true] at h
    simp only [serializeL]
    rcases h with h | h
    · exact contains_append_left _ (serializeN_contains_attr k n h)
    · exact contains_append_right _ (serializeL_contains_attr k ns h)

theorem serializeRawL_contains_attr (k : Str) : ∀ ns : List Node,
    anyElemWithAttrL k ns = true → containsSub k (serializeRawL ns) = true
  | Node.text s :: ns, h => by
    simp only [anyElemWithAttrL, anyElemWithAttrN, Bool.false_or] at h
    simp only [serializeRawL]
    exact contains_append_right s (serializeRawL_contains_attr k ns h)
  | Node.elem nm at_ cs :: ns, h => by
    simp only [anyElemWithAttrL, Bool.or_eq_true] at h
    simp only [serializeRawL]
    rcases h with h | h
    · exact contains_append_left _ (serializeN_contains_attr k _ h)
    · exact contains_append_right _ (serializeRawL_contains_attr k ns h)
  | Node.comment s :: ns, h => by
    simp only [anyElemWithAttrL, anyElemWithAttrN, Bool.false_or] at h
    simp only [serializeRawL]
    exact contains_append_right _ (serializeRawL_contains_attr k ns h)
  | Node.doctype s :: ns, h => by
    simp only [anyElemWithAttrL, anyElemWithAttrN, Bool.false_or] at h
    simp only [serializeRawL]
    exact contains_append_right _ (serializeRawL_contains_attr k ns h)

end

/-- The page, selected element and adversarial oracle response of the C4
scenario: the oracle keeps the injected marker attribute in its answer. -/
def c4html : Str := "<div><h1>Hi</h1></div>".data

/-- The selected element of the C4 scenario. -/
def c4sel : Str := "<h1>Hi</h1>".data

/-- An oracle response that retains the marker attribute on the rewritten
element, disobeying the cleanup instruction of the prompt. -/
def c4response : Str :=
  "<!DOCTYPE html><html><body><h1 data-neuro-edit-target=\"true\">Yo</h1></body></html>".data

/-- Claim C4 (counterexample): the document returned by the rewrite
endpoint can contain the marker attribute: when the oracle response keeps
the marker, the endpoint returns it verbatim, since no code strips it.
The claim as stated is false on the code. -/
theorem c4_counterexample :
    endpointHtml (rewrite_element_endpoint "p".data c4html c4sel
        (fun _ => c4response)) =
      some "<h1 data-neuro-edit-target=\"true\">Yo</h1>".data ∧
    containsSub markerAttr
      "<h1 data-neuro-edit-target=\"true\">Yo</h1>".data = true := by decide

theorem marker_head_not_ws :
    ∃ c ps, markerAttr = c :: ps ∧ isPyWS c = false := by
  refine ⟨'d', _, rfl, by decide⟩

theorem marker_last_not_ws :
    ∃ c ps, markerAttr.reverse = c :: ps ∧ isPyWS c = false :=
  ⟨'t', "egrat-tide-oruen-atad".data, by decide, by decide⟩

/-- Claim C4 (amended): the server never strips the marker attribute; it
reaches the caller exactly as the oracle leaves it.  First, the asset
splitter and serializer preserve the marker: whenever the cleaned body
contents of a document hold an element carrying the marker attribute, the
returned fragment contains the marker text.  Second, the rewrite endpoint
returns exactly the split of the isolated oracle response, with no
stripping stage in between. -/
theorem c4_amended_marker_passthrough :
    (∀ doc cid : Str, hasBody doc = true →
      anyElemWithAttrL markerAttr (cleanedBodyContents doc) = true →
      containsSub markerAttr (extract_assets doc cid).1 = true) ∧
    (∀ (prompt html sel s m : Str) (oracle : Str → Str),
      (firstTagL (parseHTML sel)).map serializeN = some s →
      (firstTagL (parseHTML sel)).map (fun t => serializeN (addMarker t)) = some m →
      containsSub s html = true →
      isolate_and_clean_html
          (oracle (surgicalUserPrompt (replaceFirst html s m) prompt)) ≠ [] →
      endpointHtml (rewrite_element_endpoint prompt html sel oracle) =
        some (extract_assets
          (isolate_and_clean_html
            (oracle (surgicalUserPrompt (replaceFirst html s m) prompt)))
          "some-id".data).1) := by
  constructor
  · intro doc cid hb hm
    rw [extract_assets_fst_of_hasBody doc cid hb]
    exact contains_stripBoth isPyWS marker_head_not_ws marker_last_not_ws
      (serializeL_contains_attr markerAttr _ hm)
  · intro prompt html sel s m oracle hs hm hin hne
    cases hft : firstTagL (parseHTML sel) with
    | none => rw [hft] at hs; simp at hs
    | some t =>
      rw [hft] at hs hm
      simp only [Option.map_some', Option.some.injEq] at hs hm
      subst hs
      subst hm
      simp [rewrite_element_endpoint, hft, hin, hne, endpointHtml]

/-- Witness for the amended C4: on the concrete adversarial response the
fragment of the splitter contains the marker, and the endpoint output is
exactly that fragment. -/
theorem c4_amended_marker_passthrough_witness :
    containsSub markerAttr (extract_assets c4response "some-id".data).1 = true ∧
    endpointHtml (rewrite_element_endpoint "p".data c4html c4sel
        (fun _ => c4response)) =
      some "<h1 data-neuro-edit-target=\"true\">Yo</h1>".data := by
  have h1 := c4_amended_marker_passthrough.1 c4response "some-id".data
    (by decide) (by decide)
  have h2 := c4_amended_marker_passthrough.2 "p".data c4html c4sel
    "<h1>Hi</h1>".data "<h1 data-neuro-edit-target=\"true\">Hi</h1>".data
    (fun _ => c4response) (by decide) (by decide) (by decide) (by decide)
  exact ⟨h1, h2.trans (by decide)⟩

end Neuroarti
